import Mathlib

/-!
Shallow embedding of `src/memory/tpool.c` (the "tiny pool" fixed-step block
allocator of the tbox library) and verification of its specification claims.

Modelling conventions:
* `ws` stands for `TB_CPU_BITBYTE` (`sizeof(tb_size_t)` in bytes); the number
  of blocks per chunk `TB_TPOOL_BLOCK_MAXN` is `8 * ws` (the source's static
  assert `TB_TPOOL_BLOCK_MAXN == sizeof(tb_size_t) << 3`).
* machine words (`tb_size_t`) are `Nat` values; every store into a word or a
  bit-field is reduced modulo the field width (`% 2 ^ (8*ws)`, `% 2 ^ 7`, ...),
  matching the untyped value semantics of the C code.
* pointers are `Nat` addresses; `TB_NULL` is `none` of an `Option Nat`.
* the pool state is the header structure together with the contents of the
  three memory regions it owns (head bitmap words, body bitmap words, data
  bytes).  The build modelled is the non-debug one (`TB_DEBUG` undefined), so
  the header has six word-sized members and no `info` block.
-/

/-- The pool state: the fields of `struct __tb_tpool_t` (magic/align/step/full
are the bit-fields of the first word; `headAddr`, `bodyAddr`, `dataAddr` are
the `head`, `body` and `data` pointers) together with the contents of the two
bitmap arrays (`headW`, `bodyW`, one `Nat` per machine word) and of the data
region (`dataB`, one `Nat` per byte). -/
structure TPool where
  magic : Nat
  align : Nat
  step : Nat
  full : Bool
  headAddr : Nat
  bodyAddr : Nat
  maxn : Nat
  pred : Nat
  dataAddr : Nat
  headW : List Nat
  bodyW : List Nat
  dataB : List Nat
deriving DecidableEq

/-- The `tb_align(x, b)` macro: round `x` up to the next multiple of `b`.
For the power-of-two alignments used by tpool this equals the source's mask
form `(x + b - 1) & ~(b - 1)`, written here as round-up-to-multiple so that it
is defined over `Nat`. -/
def tb_align (x b : Nat) : Nat := (x + b - 1) / b * b

/-- Modelled from the spec: `tb_align_pow2` (spec section 4.1 step 1,
"roundUpToPowerOfTwo") rounds a positive number up to the next power of two;
its source lives outside `src/`. -/
def tb_align_pow2 (x : Nat) : Nat := if x ≤ 1 then 1 else 2 ^ (Nat.log2 (x - 1) + 1)

/-- Size in bytes of `struct __tb_tpool_t` in the non-debug build: one word of
bit-fields (`magic:16, align:7, step:7, full:1`) plus the five word-sized
members `head`, `body`, `maxn`, `pred`, `data`. -/
def tb_tpool_sizeof (ws : Nat) : Nat := 6 * ws

/-- The chunk scan of `tb_tpool_malloc_find`:
`while (p < e && !(*p + 1)) p++; tb_check_return_val(p < e, TB_NULL);`.
Returns the index of the first word among `body[start .. start+fuel)` whose
value is not all ones (a word `w` is all ones exactly when `(w + 1)` overflows
to `0`). `fuel` is `maxn` at the top-level call, so the scan covers
`body[0 .. maxn)` exactly as the pointer loop does. -/
def findFreeChunk (wb : Nat) (body : List Nat) : Nat → Nat → Option Nat
  | _, 0 => none
  | i, fuel + 1 =>
    if (body.getD i 0 + 1) % 2 ^ wb = 0 then findFreeChunk wb body (i + 1) fuel
    else some i

/-- The unrolled free-bit probe loop of `tb_tpool_malloc_find` (the live
`#else` branch): starting from `blki`, while `blki < wb`, test the eight
offsets `blki .. blki+7` in order against the run mask `bits` over the free
mask `blks`, returning the first matching offset, else advance by eight.
`fuel` only bounds the recursion; at the top-level call it is `wb`, which is
strictly more than the `wb / 8` iterations the guard `blki < wb` allows, so
the model's loop exits exactly where the C loop does. -/
def findBlki (wb blks bits : Nat) : Nat → Nat → Nat
  | blki, 0 => blki
  | blki, fuel + 1 =>
    if blki < wb then
      if (blks >>> (blki + 0)) &&& bits = bits then blki + 0
      else if (blks >>> (blki + 1)) &&& bits = bits then blki + 1
      else if (blks >>> (blki + 2)) &&& bits = bits then blki + 2
      else if (blks >>> (blki + 3)) &&& bits = bits then blki + 3
      else if (blks >>> (blki + 4)) &&& bits = bits then blki + 4
      else if (blks >>> (blki + 5)) &&& bits = bits then blki + 5
      else if (blks >>> (blki + 6)) &&& bits = bits then blki + 6
      else if (blks >>> (blki + 7)) &&& bits = bits then blki + 7
      else findBlki wb blks bits (blki + 8) fuel
    else blki

/-- `tb_tpool_malloc_find`: scan for the first chunk with a free block, build
the run mask `bits = (1 << bitn) - 1` for `bitn = tb_align(size, step) / step`
blocks (word arithmetic, so `1 << bitn` is truncated to the word and the
`- 1` wraps), probe for a fitting offset with the unrolled loop, then mark the
body and head bitmaps and return the block address.  The guard `wb ≠ 0` is the
source's `tb_check_return_val(blkn, TB_NULL)`: the live probe branch never
decrements `blkn` from its initial value `TB_TPOOL_BLOCK_MAXN`, so the check
compares that constant against zero.  Returns the allocated address (or
`none`) together with the updated pool. -/
def tb_tpool_malloc_find (ws : Nat) (t : TPool) (size : Nat) : Option Nat × TPool :=
  let wb := 8 * ws
  match findFreeChunk wb t.bodyW 0 t.maxn with
  | none => (none, t)
  | some c =>
    let bitn := tb_align size t.step / t.step
    let bits := ((1 <<< bitn) % 2 ^ wb + (2 ^ wb - 1)) % 2 ^ wb
    if bitn ≠ 0 ∧ bitn ≤ wb then
      let blks := (2 ^ wb - 1) ^^^ t.bodyW.getD c 0
      let blki := findBlki wb blks bits 0 wb
      if wb ≠ 0 then
        (some (t.dataAddr + (c * wb + blki) * t.step),
         { t with
           bodyW := t.bodyW.set c ((t.bodyW.getD c 0 ||| bits <<< blki) % 2 ^ wb),
           headW := t.headW.set c ((t.headW.getD c 0 ||| 1 <<< blki) % 2 ^ wb) })
      else (none, t)
    else (none, t)

/-- `tb_tpool_malloc`: magic check, reject `size == 0`, reject
`size > step * TB_TPOOL_BLOCK_MAXN`, fail fast when the `full` flag is set;
otherwise search via `tb_tpool_malloc_find` (the prediction path is commented
out in the source) and set `full` when the search failed. -/
def tb_tpool_malloc (ws : Nat) (t : TPool) (size : Nat) : Option Nat × TPool :=
  let wb := 8 * ws
  if t.magic = 0xdead then
    if size ≠ 0 then
      if size ≤ t.step * wb then
        if t.full = false then
          match tb_tpool_malloc_find ws t size with
          | (none, t1) => (none, { t1 with full := true })
          | (some d, t1) => (some d, t1)
        else (none, t)
      else (none, t)
    else (none, t)
  else (none, t)

/-- `tb_tpool_clear`: after the magic check, zero the data region
(`maxn * step * TB_TPOOL_BLOCK_MAXN` bytes), the head bitmap and the body
bitmap (each guarded by a null-pointer test on the region pointer), and reset
`pred` and `full`.  The layout fields are untouched. -/
def tb_tpool_clear (ws : Nat) (t : TPool) : TPool :=
  let wb := 8 * ws
  if t.magic = 0xdead then
    { t with
      dataB := if t.dataAddr ≠ 0 then List.replicate (t.maxn * t.step * wb) 0 else t.dataB,
      headW := if t.headAddr ≠ 0 then List.replicate t.maxn 0 else t.headW,
      bodyW := if t.bodyAddr ≠ 0 then List.replicate t.maxn 0 else t.bodyW,
      pred := 0,
      full := false }
  else t

/-- `tb_tpool_free` in this snapshot: `return TB_TRUE;` — no argument is
inspected and no state is touched. -/
def tb_tpool_free (t : TPool) (data : Option Nat) : Bool × TPool := (true, t)

/-- The resolved alignment of `tb_tpool_init`:
`align = align? tb_align_pow2(align) : TB_CPU_BITBYTE; align = tb_max(align, TB_CPU_BITBYTE)`. -/
def tpResolvedAlign (ws align0 : Nat) : Nat :=
  max (if align0 ≠ 0 then tb_align_pow2 align0 else ws) ws

/-- The bytes skipped to align the buffer start:
`byte = tb_align((tb_size_t)data, align) - (tb_size_t)data`. -/
def tpSkip (ws data0 align0 : Nat) : Nat :=
  tb_align data0 (tpResolvedAlign ws align0) - data0

/-- The usable buffer size after alignment: `size -= byte`. -/
def tpSize (ws data0 size0 align0 : Nat) : Nat := size0 - tpSkip ws data0 align0

/-- The aligned buffer start: `data += byte`.  The header overlays this
address. -/
def tpData (ws data0 align0 : Nat) : Nat := data0 + tpSkip ws data0 align0

/-- The stored 7-bit `align` field: `tpool->align = align`. -/
def tpAlignField (ws align0 : Nat) : Nat := tpResolvedAlign ws align0 % 2 ^ 7

/-- The stored 7-bit `step` field: `tpool->step = tb_max(tpool->align, 16)`. -/
def tpStepField (ws align0 : Nat) : Nat := max (tpAlignField ws align0) 16 % 2 ^ 7

/-- The head bitmap address:
`tpool->head = (tb_size_t*)tb_align((tb_size_t)&tpool[1], tpool->align)`. -/
def tpHeadA (ws data0 align0 : Nat) : Nat :=
  tb_align (tpData ws data0 align0 + tb_tpool_sizeof ws) (tpAlignField ws align0)

/-- The chunk count:
`tpool->maxn = (data + size - (tb_byte_t*)tpool->head) / ((1 + (tpool->step << 2)) * (sizeof(tb_size_t) << 1))`. -/
def tpMaxn (ws data0 size0 align0 : Nat) : Nat :=
  (tpData ws data0 align0 + tpSize ws data0 size0 align0 - tpHeadA ws data0 align0) /
    ((1 + (tpStepField ws align0 <<< 2)) * (ws <<< 1))

/-- The body bitmap address: `tpool->body = tpool->head + tpool->maxn`
(word pointer arithmetic, so `maxn * wordSize` bytes after `head`). -/
def tpBodyA (ws data0 size0 align0 : Nat) : Nat :=
  tpHeadA ws data0 align0 + tpMaxn ws data0 size0 align0 * ws

/-- The data region address:
`tpool->data = (tb_byte_t*)tb_align((tb_size_t)(tpool->body + tpool->maxn), tpool->align)`. -/
def tpDataA (ws data0 size0 align0 : Nat) : Nat :=
  tb_align (tpBodyA ws data0 size0 align0 + tpMaxn ws data0 size0 align0 * ws)
    (tpAlignField ws align0)

/-- `tb_tpool_init` over a buffer starting at address `data0` of `size0`
bytes with requested alignment `align0` (0 means platform default).  Mirrors
the source: resolve and bound the alignment, align the buffer start, zero the
usable buffer, fill the header bit-fields (stores truncated to the field
widths), place `head` after the header aligned to `align`, derive `maxn` as
`(data + size - head) / ((1 + 4*step) * (2*wordSize))`, place `body` and
`data`, and run the source's defensive checks; any failed check yields
`none` (`TB_NULL`).  The intermediate quantities are the `tp...` definitions
above, one per source assignment. -/
def tb_tpool_init (ws : Nat) (data0 size0 align0 : Nat) : Option TPool :=
  if data0 ≠ 0 ∧ size0 ≠ 0 then
    if tpResolvedAlign ws align0 ≤ 64 then
      if tpSkip ws data0 align0 ≤ size0 then
        if tpSize ws data0 size0 align0 ≠ 0 then
          if tpHeadA ws data0 align0 < tpData ws data0 align0 + tpSize ws data0 size0 align0 then
            if tpHeadA ws data0 align0 % ws = 0 then
              if tpMaxn ws data0 size0 align0 ≠ 0 then
                if tpBodyA ws data0 size0 align0 < tpData ws data0 align0 + tpSize ws data0 size0 align0 then
                  if tpBodyA ws data0 size0 align0 % ws = 0 then
                    if tpDataA ws data0 size0 align0 < tpData ws data0 align0 + tpSize ws data0 size0 align0 then
                      if tpMaxn ws data0 size0 align0 * tpStepField ws align0 * (8 * ws) ≤
                          tpData ws data0 align0 + tpSize ws data0 size0 align0 - tpDataA ws data0 size0 align0 then
                        some { magic := 0xdead % 2 ^ 16,
                               align := tpAlignField ws align0,
                               step := tpStepField ws align0,
                               full := false,
                               headAddr := tpHeadA ws data0 align0,
                               bodyAddr := tpBodyA ws data0 size0 align0,
                               maxn := tpMaxn ws data0 size0 align0,
                               pred := 0,
                               dataAddr := tpDataA ws data0 size0 align0,
                               headW := List.replicate (tpMaxn ws data0 size0 align0) 0,
                               bodyW := List.replicate (tpMaxn ws data0 size0 align0) 0,
                               dataB := List.replicate
                                 (tpMaxn ws data0 size0 align0 * tpStepField ws align0 * (8 * ws)) 0 }
                      else none
                    else none
                  else none
                else none
              else none
            else none
          else none
        else none
      else none
    else none
  else none

/-- One caller-visible pool operation, for stating invariants over operation
sequences. -/
inductive TOp where
  | alloc (size : Nat)
  | free (p : Option Nat)
  | clear

/-- Apply one operation to a pool state. -/
def runOp (ws : Nat) (t : TPool) : TOp → TPool
  | .alloc s => (tb_tpool_malloc ws t s).2
  | .free p => (tb_tpool_free t p).2
  | .clear => tb_tpool_clear ws t

/-- Apply a sequence of operations to a pool state. -/
def runOps (ws : Nat) (t : TPool) (ops : List TOp) : TPool :=
  ops.foldl (runOp ws) t

/-- The head-implies-body bitmap invariant: every set bit of a head word is
set in the corresponding body word. -/
def tpInv (t : TPool) : Prop :=
  ∀ i j, (t.headW.getD i 0).testBit j = true → (t.bodyW.getD i 0).testBit j = true

/-- Structural well-formedness carried through the proofs: the three region
pointers are non-null (as `init` makes them), both bitmap arrays have exactly
`maxn` words, every word fits in the machine word width, and the
head-implies-body invariant holds. -/
def tpWF (ws : Nat) (t : TPool) : Prop :=
  0 < t.headAddr ∧ 0 < t.bodyAddr ∧ 0 < t.dataAddr ∧
  t.headW.length = t.maxn ∧ t.bodyW.length = t.maxn ∧
  (∀ i, t.headW.getD i 0 < 2 ^ (8 * ws)) ∧
  (∀ i, t.bodyW.getD i 0 < 2 ^ (8 * ws)) ∧
  tpInv t

/-- A concrete pool: the result of `tb_tpool_init 4 64 1100 0` (32-bit
platform, buffer at address 64 of 1100 bytes, default alignment): step 16,
two chunks, head bitmap at 88, body bitmap at 96, data region at 104. -/
def tpInit : TPool :=
  { magic := 57005, align := 4, step := 16, full := false,
    headAddr := 88, bodyAddr := 96, maxn := 2, pred := 0, dataAddr := 104,
    headW := [0, 0], bodyW := [0, 0], dataB := List.replicate 1024 0 }

/-- The pool `tpInit` after `alloc 496` (31 blocks): chunk 0 holds one live
31-block allocation, bits 0..30 of its body word set, only bit 31 free — so
chunk 0 is not full, yet no run of two consecutive free bits exists in it. -/
def tpDemo : TPool :=
  { tpInit with headW := [1, 0], bodyW := [2147483647, 0] }

/-- A concrete one-chunk pool: the result of `tb_tpool_init 4 64 600 0`. -/
def tpE0 : TPool :=
  { magic := 57005, align := 4, step := 16, full := false,
    headAddr := 88, bodyAddr := 92, maxn := 1, pred := 0, dataAddr := 96,
    headW := [0], bodyW := [0], dataB := List.replicate 512 0 }

/-- The pool `tpE0` after a maximal `alloc 512` filled its single chunk. -/
def tpE1 : TPool := { tpE0 with headW := [1], bodyW := [4294967295] }

/-- The pool `tpE1` after a failed `alloc 16` set the exhausted flag. -/
def tpExh : TPool := { tpE1 with full := true }

/-! ### List helpers -/

/-- Reading an out-of-range index of a `replicate` still yields the default,
so every index of an all-zero bitmap reads zero. -/
theorem getD_replicate_zero : ∀ (n i : Nat), (List.replicate n (0 : Nat)).getD i 0 = 0
  | 0, _ => rfl
  | _ + 1, 0 => rfl
  | n + 1, i + 1 => getD_replicate_zero n i

/-- Reading the updated index after `set`, when it is in range. -/
theorem getD_set_self (l : List Nat) (c v : Nat) (h : c < l.length) :
    (l.set c v).getD c 0 = v := by
  simp [List.getD_eq_getElem?_getD, List.getElem?_set_self h]

/-- Reading any other index after `set`. -/
theorem getD_set_ne (l : List Nat) (c v i : Nat) (h : i ≠ c) :
    (l.set c v).getD i 0 = l.getD i 0 := by
  simp [List.getD_eq_getElem?_getD, List.getElem?_set_ne (Ne.symm h)]

/-! ### Word-level helpers -/

/-- A word below `2 ^ wb` is all ones exactly when incrementing it wraps to
zero modulo the word size: the bridge between the C test `!(*p + 1)` and the
phrase "the body word is all ones". -/
theorem full_word_iff (wb w : Nat) (h : w < 2 ^ wb) :
    (w + 1) % 2 ^ wb = 0 ↔ w = 2 ^ wb - 1 := by
  constructor
  · intro h0
    rcases (Nat.dvd_of_mod_eq_zero h0) with ⟨m, hm⟩
    have hpos : 0 < 2 ^ wb := Nat.pos_pow_of_pos wb (by omega)
    have hm0 : m ≠ 0 := by rintro rfl; omega
    have hge : 2 ^ wb ≤ 2 ^ wb * m := by
      calc 2 ^ wb = 2 ^ wb * 1 := by ring
        _ ≤ 2 ^ wb * m := Nat.mul_le_mul_left _ (by omega)
    omega
  · intro h1
    have hpos : 0 < 2 ^ wb := Nat.pos_pow_of_pos wb (by omega)
    have : w + 1 = 2 ^ wb := by omega
    simp [this]

/-- Bits of a word at or beyond the word width are clear. -/
theorem testBit_high_false (wb w j : Nat) (hw : w < 2 ^ wb) (hj : wb ≤ j) :
    w.testBit j = false :=
  Nat.testBit_lt_two_pow (lt_of_lt_of_le hw (Nat.pow_le_pow_right (by omega) hj))

/-- Bits of the free mask `~body` (computed as `(2^wb - 1) ^^^ body`): bit `j`
is set exactly when `j` is inside the word and the body bit is clear. -/
theorem testBit_freeMask (wb w j : Nat) (hw : w < 2 ^ wb) :
    ((2 ^ wb - 1) ^^^ w).testBit j = (decide (j < wb) && !w.testBit j) := by
  rcases Nat.lt_or_ge j wb with hj | hj
  · simp [Nat.testBit_xor, hj]
  · simp [Nat.testBit_xor, Nat.not_lt.mpr hj, Nat.not_lt_of_ge hj,
      testBit_high_false wb w j hw hj]

/-- The run-mask computation `((1 << bitn) - 1)` in word arithmetic (truncated
shift, wrapping subtraction) produces the untruncated value `2 ^ bitn - 1`
whenever `bitn ≤ wb` — including `bitn = wb`, where the shift truncates to `0`
and the wrapping `- 1` yields the all-ones word. -/
theorem bits_eq (wb k : Nat) (hk : k ≤ wb) :
    ((1 <<< k) % 2 ^ wb + (2 ^ wb - 1)) % 2 ^ wb = 2 ^ k - 1 := by
  have h1 : (1 : Nat) <<< k = 2 ^ k := by simp [Nat.shiftLeft_eq]
  have hpos : 0 < 2 ^ wb := Nat.pos_pow_of_pos wb (by omega)
  rcases Nat.lt_or_ge k wb with hlt | hge
  · have hk2 : 2 ^ k < 2 ^ wb := Nat.pow_lt_pow_right (by omega) hlt
    have hk0 : 0 < 2 ^ k := Nat.pos_pow_of_pos k (by omega)
    rw [h1, Nat.mod_eq_of_lt hk2]
    have : 2 ^ k + (2 ^ wb - 1) = (2 ^ k - 1) + 2 ^ wb := by omega
    rw [this, Nat.add_mod_right, Nat.mod_eq_of_lt (by omega)]
  · have hkwb : k = wb := by omega
    subst hkwb
    rw [h1, Nat.mod_self, Nat.zero_add, Nat.mod_eq_of_lt (by omega)]

/-- The probe condition `(blks >> o) & bits == bits` (with
`blks = ~bodyWord` and `bits = 2^k - 1`) holds exactly when the `k` body bits
starting at offset `o` all lie inside the word and are all clear. -/
theorem cond_iff_fits (wb k w o : Nat) (hw : w < 2 ^ wb) (hk1 : 1 ≤ k) :
    (((2 ^ wb - 1) ^^^ w) >>> o) &&& (2 ^ k - 1) = 2 ^ k - 1 ↔
      o + k ≤ wb ∧ ∀ i < k, w.testBit (o + i) = false := by
  constructor
  · intro h
    have hbit : ∀ i < k, ((2 ^ wb - 1) ^^^ w).testBit (o + i) = true := by
      intro i hi
      have := congrArg (fun x => x.testBit i) h
      simp only [Nat.testBit_and, Nat.testBit_shiftRight,
        Nat.testBit_two_pow_sub_one, hi, decide_True, Bool.and_true] at this
      exact this
    have hin : ∀ i < k, o + i < wb ∧ w.testBit (o + i) = false := by
      intro i hi
      have h2 := hbit i hi
      rw [testBit_freeMask wb w (o + i) hw] at h2
      rcases Nat.lt_or_ge (o + i) wb with hj | hj
      · refine ⟨hj, ?_⟩
        simpa [hj] using h2
      · simp [Nat.not_lt.mpr hj] at h2
    constructor
    · have := (hin (k - 1) (by omega)).1
      omega
    · exact fun i hi => (hin i hi).2
  · rintro ⟨hok, hclear⟩
    apply Nat.eq_of_testBit_eq
    intro i
    simp only [Nat.testBit_and, Nat.testBit_shiftRight, Nat.testBit_two_pow_sub_one]
    rcases Nat.lt_or_ge i k with hi | hi
    · have h1 : o + i < wb := by omega
      rw [testBit_freeMask wb w (o + i) hw, hclear i hi]
      simp [h1, hi]
    · simp [Nat.not_lt.mpr hi]

/-- Helper for the chunk-scan: if every word strictly before `c` is full and
word `c` is not, the scan started at `start ≤ c` with enough fuel stops at
exactly `c` — the "first chunk whose body word is not all ones". -/
theorem findFreeChunk_some (wb : Nat) (body : List Nat) (c : Nat) :
    ∀ (fuel start : Nat), start ≤ c → c < start + fuel →
      (∀ j, start ≤ j → j < c → (body.getD j 0 + 1) % 2 ^ wb = 0) →
      (body.getD c 0 + 1) % 2 ^ wb ≠ 0 →
      findFreeChunk wb body start fuel = some c
  | 0, start => by intro h1 h2; omega
  | fuel + 1, start => by
    intro h1 h2 hfullpre hfree
    rw [findFreeChunk]
    rcases Nat.lt_or_ge start c with hlt | hge
    · rw [if_pos (hfullpre start (le_refl _) hlt)]
      exact findFreeChunk_some wb body c fuel (start + 1) (by omega) (by omega)
        (fun j hj1 hj2 => hfullpre j (by omega) hj2) hfree
    · have : start = c := by omega
      subst this
      rw [if_neg hfree]

/-- The scan result is always within the scanned range. -/
theorem findFreeChunk_lt (wb : Nat) (body : List Nat) :
    ∀ (fuel start c : Nat), findFreeChunk wb body start fuel = some c →
      start ≤ c ∧ c < start + fuel
  | 0, start, c => by intro h; exact absurd h (by rw [findFreeChunk]; simp)
  | fuel + 1, start, c => by
    intro h
    rw [findFreeChunk] at h
    split at h
    · have := findFreeChunk_lt wb body fuel (start + 1) c h
      omega
    · cases h
      omega

/-- The unrolled probe loop returns the least matching offset: if `b` is the
first offset at which the probe condition holds, and the loop starts at or
below `b` with enough fuel, it stops exactly at `b`. -/
theorem findBlki_finds (wb blks bits b : Nat) :
    ∀ (fuel start : Nat), start ≤ b → b < start + 8 * fuel → b < wb →
      (blks >>> b) &&& bits = bits →
      (∀ o, start ≤ o → o < b → ¬((blks >>> o) &&& bits = bits)) →
      findBlki wb blks bits start fuel = b
  | 0, start => by intro h1 h2; omega
  | fuel + 1, start => by
    intro h1 h2 hb hcond hleast
    rw [findBlki, if_pos (by omega : start < wb)]
    rcases Nat.lt_or_ge b (start + 8) with hnear | hfar
    · have hd : b - start < 8 := by omega
      interval_cases h : (b - start)
      all_goals (
        have hbe : b = start + (b - start) := by omega
        rw [h] at hbe)
      · rw [if_pos (by rw [← hbe]; exact hcond)]
        omega
      · rw [if_neg (hleast (start + 0) (by omega) (by omega)),
          if_pos (by rw [← hbe]; exact hcond)]
        omega
      · rw [if_neg (hleast (start + 0) (by omega) (by omega)),
          if_neg (hleast (start + 1) (by omega) (by omega)),
          if_pos (by rw [← hbe]; exact hcond)]
        omega
      · rw [if_neg (hleast (start + 0) (by omega) (by omega)),
          if_neg (hleast (start + 1) (by omega) (by omega)),
          if_neg (hleast (start + 2) (by omega) (by omega)),
          if_pos (by rw [← hbe]; exact hcond)]
        omega
      · rw [if_neg (hleast (start + 0) (by omega) (by omega)),
          if_neg (hleast (start + 1) (by omega) (by omega)),
          if_neg (hleast (start + 2) (by omega) (by omega)),
          if_neg (hleast (start + 3) (by omega) (by omega)),
          if_pos (by rw [← hbe]; exact hcond)]
        omega
      · rw [if_neg (hleast (start + 0) (by omega) (by omega)),
          if_neg (hleast (start + 1) (by omega) (by omega)),
          if_neg (hleast (start + 2) (by omega) (by omega)),
          if_neg (hleast (start + 3) (by omega) (by omega)),
          if_neg (hleast (start + 4) (by omega) (by omega)),
          if_pos (by rw [← hbe]; exact hcond)]
        omega
      · rw [if_neg (hleast (start + 0) (by omega) (by omega)),
          if_neg (hleast (start + 1) (by omega) (by omega)),
          if_neg (hleast (start + 2) (by omega) (by omega)),
          if_neg (hleast (start + 3) (by omega) (by omega)),
          if_neg (hleast (start + 4) (by omega) (by omega)),
          if_neg (hleast (start + 5) (by omega) (by omega)),
          if_pos (by rw [← hbe]; exact hcond)]
        omega
      · rw [if_neg (hleast (start + 0) (by omega) (by omega)),
          if_neg (hleast (start + 1) (by omega) (by omega)),
          if_neg (hleast (start + 2) (by omega) (by omega)),
          if_neg (hleast (start + 3) (by omega) (by omega)),
          if_neg (hleast (start + 4) (by omega) (by omega)),
          if_neg (hleast (start + 5) (by omega) (by omega)),
          if_neg (hleast (start + 6) (by omega) (by omega)),
          if_pos (by rw [← hbe]; exact hcond)]
        omega
    · rw [if_neg (hleast (start + 0) (by omega) (by omega)),
        if_neg (hleast (start + 1) (by omega) (by omega)),
        if_neg (hleast (start + 2) (by omega) (by omega)),
        if_neg (hleast (start + 3) (by omega) (by omega)),
        if_neg (hleast (start + 4) (by omega) (by omega)),
        if_neg (hleast (start + 5) (by omega) (by omega)),
        if_neg (hleast (start + 6) (by omega) (by omega)),
        if_neg (hleast (start + 7) (by omega) (by omega))]
      exact findBlki_finds wb blks bits b fuel (start + 8) (by omega) (by omega)
        hb hcond (fun o ho1 ho2 => hleast o (by omega) ho2)

/-- Dichotomy for the probe loop when started on a multiple of eight with the
word width a multiple of eight: it either stops inside the word at an offset
where the probe condition holds, or runs off the end and returns exactly the
word width. -/
theorem findBlki_cases (wb blks bits : Nat) (h8 : 8 ∣ wb) :
    ∀ (fuel start : Nat), 8 ∣ start → start ≤ wb → wb ≤ start + 8 * fuel →
      findBlki wb blks bits start fuel = wb ∨
        (findBlki wb blks bits start fuel < wb ∧
         (blks >>> findBlki wb blks bits start fuel) &&& bits = bits)
  | 0, start => by
    intro hs hle hfuel
    rw [findBlki]
    left; omega
  | fuel + 1, start => by
    intro hs hle hfuel
    rw [findBlki]
    rcases Nat.lt_or_ge start wb with hlt | hge
    · rw [if_pos hlt]
      have hnext : start + 8 ≤ wb := by
        rcases hs with ⟨a, rfl⟩
        rcases h8 with ⟨bq, rfl⟩
        omega
      by_cases h0 : (blks >>> (start + 0)) &&& bits = bits
      · rw [if_pos h0]; right; exact ⟨by omega, h0⟩
      rw [if_neg h0]
      by_cases h1 : (blks >>> (start + 1)) &&& bits = bits
      · rw [if_pos h1]; right; exact ⟨by omega, h1⟩
      rw [if_neg h1]
      by_cases h2 : (blks >>> (start + 2)) &&& bits = bits
      · rw [if_pos h2]; right; exact ⟨by omega, h2⟩
      rw [if_neg h2]
      by_cases h3 : (blks >>> (start + 3)) &&& bits = bits
      · rw [if_pos h3]; right; exact ⟨by omega, h3⟩
      rw [if_neg h3]
      by_cases h4 : (blks >>> (start + 4)) &&& bits = bits
      · rw [if_pos h4]; right; exact ⟨by omega, h4⟩
      rw [if_neg h4]
      by_cases h5 : (blks >>> (start + 5)) &&& bits = bits
      · rw [if_pos h5]; right; exact ⟨by omega, h5⟩
      rw [if_neg h5]
      by_cases h6 : (blks >>> (start + 6)) &&& bits = bits
      · rw [if_pos h6]; right; exact ⟨by omega, h6⟩
      rw [if_neg h6]
      by_cases h7 : (blks >>> (start + 7)) &&& bits = bits
      · rw [if_pos h7]; right; exact ⟨by omega, h7⟩
      rw [if_neg h7]
      exact findBlki_cases wb blks bits h8 fuel (start + 8)
        (by rcases hs with ⟨a, rfl⟩; exact ⟨a + 1, by ring⟩) hnext (by omega)
    · rw [if_neg (by omega)]
      left; omega

/-- Rounding up never moves an address down. -/
theorem le_tb_align (x b : Nat) (hb : 0 < b) : x ≤ tb_align x b := by
  rw [tb_align]
  have hdm : b * ((x + b - 1) / b) + (x + b - 1) % b = x + b - 1 := Nat.div_add_mod _ _
  have hlt : (x + b - 1) % b < b := Nat.mod_lt _ hb
  rw [Nat.mul_comm b ((x + b - 1) / b)] at hdm
  omega

/-- A single bit as a shifted one: bit `j` of `1 << r` is set only at `j = r`. -/
theorem testBit_one_shiftLeft (r j : Nat) : ((1 : Nat) <<< r).testBit j = decide (j = r) := by
  have h1 : (1 : Nat) = 2 ^ 1 - 1 := rfl
  rw [Nat.testBit_shiftLeft, h1, Nat.testBit_two_pow_sub_one]
  by_cases h : j = r
  · subst h
    simp
  · rcases Nat.lt_or_ge j r with hlt | hge
    · simp [h, Nat.not_le_of_lt hlt]
    · have h2 : ¬(j - r < 1) := by omega
      simp [h, h2]

/-- A word OR-ed with a mask shifted entirely past the word width is unchanged
after truncation to the word: the store performed by the fall-through
allocation path when the probe ran off the end of the chunk. -/
theorem lor_shift_high_mod (wb w x r : Nat) (hw : w < 2 ^ wb) (hr : wb ≤ r) :
    (w ||| x <<< r) % 2 ^ wb = w := by
  apply Nat.eq_of_testBit_eq
  intro i
  rw [Nat.testBit_mod_two_pow]
  rcases Nat.lt_or_ge i wb with hi | hi
  · have hxr : (x <<< r).testBit i = false := by
      rw [Nat.testBit_shiftLeft]
      simp [Nat.not_le_of_lt (by omega : i < r)]
    simp [hi, Nat.testBit_or, hxr]
  · simp [Nat.not_lt.mpr hi, testBit_high_false wb w i hw hi]

/-- A word OR-ed with a run mask that stays inside the word width is below
`2 ^ wb`, so the truncating store keeps it intact. -/
theorem lor_shift_low_mod (wb w k b : Nat) (hw : w < 2 ^ wb) (hbk : b + k ≤ wb) :
    (w ||| (2 ^ k - 1) <<< b) % 2 ^ wb = w ||| (2 ^ k - 1) <<< b := by
  apply Nat.mod_eq_of_lt
  apply Nat.or_lt_two_pow hw
  rw [Nat.shiftLeft_eq]
  calc (2 ^ k - 1) * 2 ^ b < 2 ^ k * 2 ^ b := by
        have : 0 < 2 ^ k := Nat.pos_pow_of_pos k (by omega)
        have : 0 < 2 ^ b := Nat.pos_pow_of_pos b (by omega)
        apply Nat.mul_lt_mul_of_lt_of_le (by omega) (le_refl _) (by omega)
    _ = 2 ^ (k + b) := by rw [Nat.pow_add]
    _ ≤ 2 ^ wb := Nat.pow_le_pow_right (by omega) (by omega)

/-- The allocation search preserves well-formedness, in particular the
head-implies-body invariant: the failure paths leave the bitmaps untouched
(the fall-through store with the probe offset at the word width is erased by
the truncating store), and the success path sets the head bit at the start of
the freshly set body run. -/
theorem find_preserves (ws : Nat) (t : TPool) (size : Nat) (h : tpWF ws t) :
    tpWF ws (tb_tpool_malloc_find ws t size).2 := by
  obtain ⟨ha1, ha2, ha3, hlh, hlb, hhb, hbb, hinv⟩ := h
  simp only [tb_tpool_malloc_find]
  cases hfc : findFreeChunk (8 * ws) t.bodyW 0 t.maxn with
  | none => exact ⟨ha1, ha2, ha3, hlh, hlb, hhb, hbb, hinv⟩
  | some c =>
    have hc : c < t.maxn := by
      have := findFreeChunk_lt (8 * ws) t.bodyW t.maxn 0 c hfc
      omega
    dsimp only
    split
    · next hg =>
      obtain ⟨hbitn0, hbitnle⟩ := hg
      split
      · next hwb =>
        dsimp only
        have hpos : 0 < 2 ^ (8 * ws) := Nat.pos_pow_of_pos _ (by omega)
        have hbit0 : ((((1 : Nat) <<< (tb_align size t.step / t.step)) % 2 ^ (8 * ws) +
            (2 ^ (8 * ws) - 1)) % 2 ^ (8 * ws)).testBit 0 = true := by
          rw [bits_eq (8 * ws) (tb_align size t.step / t.step) hbitnle,
            Nat.testBit_two_pow_sub_one]
          exact decide_eq_true (Nat.pos_of_ne_zero hbitn0)
        refine ⟨ha1, ha2, ha3, ?_, ?_, ?_, ?_, ?_⟩
        · rw [List.length_set]; exact hlh
        · rw [List.length_set]; exact hlb
        · intro i
          by_cases hic : i = c
          · subst hic
            rw [getD_set_self _ _ _ (by rw [hlh]; exact hc)]
            exact Nat.mod_lt _ hpos
          · rw [getD_set_ne _ _ _ _ hic]
            exact hhb i
        · intro i
          by_cases hic : i = c
          · subst hic
            rw [getD_set_self _ _ _ (by rw [hlb]; exact hc)]
            exact Nat.mod_lt _ hpos
          · rw [getD_set_ne _ _ _ _ hic]
            exact hbb i
        · intro i j htest
          by_cases hic : i = c
          · subst hic
            rw [getD_set_self _ _ _ (by rw [hlh]; exact hc)] at htest
            rw [getD_set_self _ _ _ (by rw [hlb]; exact hc)]
            rw [Nat.testBit_mod_two_pow, Bool.and_eq_true, Nat.testBit_or,
              Bool.or_eq_true] at htest
            obtain ⟨hjlt, hor⟩ := htest
            rw [Nat.testBit_mod_two_pow, Bool.and_eq_true, Nat.testBit_or,
              Bool.or_eq_true]
            refine ⟨hjlt, ?_⟩
            rcases hor with hold | hnew
            · exact Or.inl (hinv i j hold)
            · rw [testBit_one_shiftLeft] at hnew
              have hjr := of_decide_eq_true hnew
              right
              rw [Nat.testBit_shiftLeft, hjr]
              simp only [ge_iff_le, le_refl, decide_True, Nat.sub_self, Bool.true_and]
              exact hbit0
          · rw [getD_set_ne _ _ _ _ hic] at htest
            rw [getD_set_ne _ _ _ _ hic]
            exact hinv i j htest
      · exact ⟨ha1, ha2, ha3, hlh, hlb, hhb, hbb, hinv⟩
    · exact ⟨ha1, ha2, ha3, hlh, hlb, hhb, hbb, hinv⟩

/-- `tb_tpool_malloc` preserves well-formedness: every rejection path leaves
the state unchanged, setting the `full` flag touches no bitmap, and the search
itself preserves it. -/
theorem malloc_preserves (ws : Nat) (t : TPool) (size : Nat) (h : tpWF ws t) :
    tpWF ws (tb_tpool_malloc ws t size).2 := by
  simp only [tb_tpool_malloc]
  split
  · split
    · split
      · split
        · have hf := find_preserves ws t size h
          rcases hres : tb_tpool_malloc_find ws t size with ⟨r, t1⟩
          rw [hres] at hf
          cases r
          · exact hf
          · exact hf
        · exact h
      · exact h
    · exact h
  · exact h

/-- `tb_tpool_clear` preserves well-formedness: the bitmaps are either reset
to all-zero words (in which case every invariant holds trivially) or left
alone, and since the region pointers of a well-formed pool are non-null both
bitmaps are reset together. -/
theorem clear_preserves (ws : Nat) (t : TPool) (h : tpWF ws t) :
    tpWF ws (tb_tpool_clear ws t) := by
  obtain ⟨ha1, ha2, ha3, hlh, hlb, hhb, hbb, hinv⟩ := h
  have hpos : 0 < 2 ^ (8 * ws) := Nat.pos_pow_of_pos _ (by omega)
  simp only [tb_tpool_clear]
  split
  · refine ⟨ha1, ha2, ha3, ?_, ?_, ?_, ?_, ?_⟩ <;>
      simp only [if_pos (by omega : t.headAddr ≠ 0), if_pos (by omega : t.bodyAddr ≠ 0)]
    · exact List.length_replicate _ _
    · exact List.length_replicate _ _
    · intro i; rw [getD_replicate_zero]; exact hpos
    · intro i; rw [getD_replicate_zero]; exact hpos
    · intro i j htest
      rw [getD_replicate_zero, Nat.zero_testBit] at htest
      exact absurd htest (by simp)
  · exact ⟨ha1, ha2, ha3, hlh, hlb, hhb, hbb, hinv⟩

/-- Every single caller operation preserves well-formedness (`free` is the
identity on the state in this snapshot). -/
theorem runOp_preserves (ws : Nat) (t : TPool) (op : TOp) (h : tpWF ws t) :
    tpWF ws (runOp ws t op) := by
  cases op with
  | alloc s => exact malloc_preserves ws t s h
  | free p => exact h
  | clear => exact clear_preserves ws t h

/-- Every operation sequence preserves well-formedness. -/
theorem runOps_preserves (ws : Nat) (ops : List TOp) :
    ∀ (t : TPool), tpWF ws t → tpWF ws (runOps ws t ops) := by
  induction ops with
  | nil => intro t h; exact h
  | cons op rest ih =>
    intro t h
    exact ih (runOp ws t op) (runOp_preserves ws t op h)

/-- Inversion of a successful `tb_tpool_init`: all eleven guards passed and
the returned pool is exactly the record the source builds. -/
theorem init_inversion (ws d s a : Nat) (t : TPool)
    (h0 : tb_tpool_init ws d s a = some t) :
    (d ≠ 0 ∧ s ≠ 0) ∧ tpResolvedAlign ws a ≤ 64 ∧ tpSkip ws d a ≤ s ∧
    tpSize ws d s a ≠ 0 ∧
    tpHeadA ws d a < tpData ws d a + tpSize ws d s a ∧
    tpHeadA ws d a % ws = 0 ∧
    tpMaxn ws d s a ≠ 0 ∧
    tpBodyA ws d s a < tpData ws d a + tpSize ws d s a ∧
    tpBodyA ws d s a % ws = 0 ∧
    tpDataA ws d s a < tpData ws d a + tpSize ws d s a ∧
    tpMaxn ws d s a * tpStepField ws a * (8 * ws) ≤
      tpData ws d a + tpSize ws d s a - tpDataA ws d s a ∧
    t = { magic := 0xdead % 2 ^ 16, align := tpAlignField ws a,
          step := tpStepField ws a, full := false,
          headAddr := tpHeadA ws d a, bodyAddr := tpBodyA ws d s a,
          maxn := tpMaxn ws d s a, pred := 0, dataAddr := tpDataA ws d s a,
          headW := List.replicate (tpMaxn ws d s a) 0,
          bodyW := List.replicate (tpMaxn ws d s a) 0,
          dataB := List.replicate
            (tpMaxn ws d s a * tpStepField ws a * (8 * ws)) 0 } := by
  rw [tb_tpool_init] at h0
  by_cases h1 : d ≠ 0 ∧ s ≠ 0
  case neg => rw [if_neg h1] at h0; exact absurd h0 (by simp)
  rw [if_pos h1] at h0
  by_cases h2 : tpResolvedAlign ws a ≤ 64
  case neg => rw [if_neg h2] at h0; exact absurd h0 (by simp)
  rw [if_pos h2] at h0
  by_cases h3 : tpSkip ws d a ≤ s
  case neg => rw [if_neg h3] at h0; exact absurd h0 (by simp)
  rw [if_pos h3] at h0
  by_cases h4 : tpSize ws d s a ≠ 0
  case neg => rw [if_neg h4] at h0; exact absurd h0 (by simp)
  rw [if_pos h4] at h0
  by_cases h5 : tpHeadA ws d a < tpData ws d a + tpSize ws d s a
  case neg => rw [if_neg h5] at h0; exact absurd h0 (by simp)
  rw [if_pos h5] at h0
  by_cases h6 : tpHeadA ws d a % ws = 0
  case neg => rw [if_neg h6] at h0; exact absurd h0 (by simp)
  rw [if_pos h6] at h0
  by_cases h7 : tpMaxn ws d s a ≠ 0
  case neg => rw [if_neg h7] at h0; exact absurd h0 (by simp)
  rw [if_pos h7] at h0
  by_cases h8 : tpBodyA ws d s a < tpData ws d a + tpSize ws d s a
  case neg => rw [if_neg h8] at h0; exact absurd h0 (by simp)
  rw [if_pos h8] at h0
  by_cases h9 : tpBodyA ws d s a % ws = 0
  case neg => rw [if_neg h9] at h0; exact absurd h0 (by simp)
  rw [if_pos h9] at h0
  by_cases h10 : tpDataA ws d s a < tpData ws d a + tpSize ws d s a
  case neg => rw [if_neg h10] at h0; exact absurd h0 (by simp)
  rw [if_pos h10] at h0
  by_cases h11 : tpMaxn ws d s a * tpStepField ws a * (8 * ws) ≤
      tpData ws d a + tpSize ws d s a - tpDataA ws d s a
  case neg => rw [if_neg h11] at h0; exact absurd h0 (by simp)
  rw [if_pos h11, Option.some.injEq] at h0
  exact ⟨h1, h2, h3, h4, h5, h6, h7, h8, h9, h10, h11, h0.symm⟩

/-- The resolved alignment is at least the platform word size, and (when the
64-byte bound holds) survives the 7-bit field store intact. -/
theorem tpAlignField_eq (ws a : Nat) (h64 : tpResolvedAlign ws a ≤ 64) :
    tpAlignField ws a = tpResolvedAlign ws a ∧ ws ≤ tpAlignField ws a := by
  have hge : ws ≤ tpResolvedAlign ws a := le_max_right _ _
  have : tpResolvedAlign ws a < 2 ^ 7 := by omega
  constructor
  · rw [tpAlignField, Nat.mod_eq_of_lt this]
  · rw [tpAlignField, Nat.mod_eq_of_lt this]; exact hge

/-- The stored `step` field survives its 7-bit store intact and lies between
16 and 64. -/
theorem tpStepField_eq (ws a : Nat) (h64 : tpResolvedAlign ws a ≤ 64) :
    tpStepField ws a = max (tpAlignField ws a) 16 ∧
    16 ≤ tpStepField ws a ∧ tpStepField ws a ≤ 64 := by
  obtain ⟨hal, _⟩ := tpAlignField_eq ws a h64
  have h1 : max (tpAlignField ws a) 16 ≤ 64 := by
    rw [hal]; omega
  have h2 : (16 : Nat) ≤ max (tpAlignField ws a) 16 := le_max_right _ _
  have h3 : max (tpAlignField ws a) 16 < 2 ^ 7 := by omega
  refine ⟨?_, ?_, ?_⟩
  · rw [tpStepField, Nat.mod_eq_of_lt h3]
  · rw [tpStepField, Nat.mod_eq_of_lt h3]; exact h2
  · rw [tpStepField, Nat.mod_eq_of_lt h3]; exact h1

/-- A successfully initialized pool is well-formed: the bitmaps are zeroed
words of length `maxn` and the three region pointers are positive. -/
theorem init_WF (ws data0 size0 align0 : Nat) (t : TPool) (hws : 0 < ws)
    (h0 : tb_tpool_init ws data0 size0 align0 = some t) : tpWF ws t := by
  have hpos : 0 < 2 ^ (8 * ws) := Nat.pos_pow_of_pos _ (by omega)
  obtain ⟨h1, h2, h3, h4, h5, h6, h7, h8, h9, h10, h11, ht⟩ :=
    init_inversion ws data0 size0 align0 t h0
  obtain ⟨hal, halge⟩ := tpAlignField_eq ws align0 h2
  have halpos : 0 < tpAlignField ws align0 := by omega
  have hhead : 0 < tpHeadA ws data0 align0 := by
    have := le_tb_align (tpData ws data0 align0 + tb_tpool_sizeof ws)
      (tpAlignField ws align0) halpos
    have : 0 < tpData ws data0 align0 := by
      rw [tpData]
      omega
    rw [tpHeadA]
    have := le_tb_align (tpData ws data0 align0 + tb_tpool_sizeof ws)
      (tpAlignField ws align0) halpos
    omega
  have hbody : 0 < tpBodyA ws data0 size0 align0 := by
    rw [tpBodyA]; omega
  have hdata : 0 < tpDataA ws data0 size0 align0 := by
    rw [tpDataA]
    have := le_tb_align (tpBodyA ws data0 size0 align0 +
      tpMaxn ws data0 size0 align0 * ws) (tpAlignField ws align0) halpos
    omega
  subst ht
  refine ⟨hhead, hbody, hdata, ?_, ?_, ?_, ?_, ?_⟩
  · exact List.length_replicate _ _
  · exact List.length_replicate _ _
  · intro i; rw [getD_replicate_zero]; exact hpos
  · intro i; rw [getD_replicate_zero]; exact hpos
  · intro i j htest
    rw [getD_replicate_zero, Nat.zero_testBit] at htest
    exact absurd htest (by simp)

/-- The block count computed by `tb_align(size, step) / step` is the ceiling
division: any `size` in `(step*(k-1), step*k]` rounds to exactly `k` blocks. -/
theorem bitn_eq (step size k : Nat) (hstep : 0 < step)
    (hlo : step * (k - 1) < size) (hhi : size ≤ step * k) :
    tb_align size step / step = k := by
  have hk1 : 1 ≤ k := by
    by_contra hcon
    have hk0 : k = 0 := by omega
    rw [hk0, Nat.mul_zero] at hhi
    rw [hk0, Nat.zero_sub, Nat.mul_zero] at hlo
    omega
  rw [tb_align, Nat.mul_div_cancel _ hstep]
  have he : step * k = step * (k - 1) + step := by
    conv_lhs => rw [show k = (k - 1) + 1 from by omega]
    rw [Nat.mul_add, Nat.mul_one]
  have hc : k * step = step * k := Nat.mul_comm _ _
  have hd : (k + 1) * step = k * step + step := by ring
  apply Nat.div_eq_of_lt_le
  · omega
  · omega

/-- A word OR-ed with a single bit inside the word width is unchanged by the
truncating store. -/
theorem lor_one_shift_mod (wb w b : Nat) (hw : w < 2 ^ wb) (hb : b < wb) :
    (w ||| 1 <<< b) % 2 ^ wb = w ||| 1 <<< b := by
  apply Nat.mod_eq_of_lt
  apply Nat.or_lt_two_pow hw
  rw [Nat.shiftLeft_eq, Nat.one_mul]
  exact Nat.pow_lt_pow_right (by omega) hb

/-- Claim C2: for every successful alloc of a size in `(step*(k-1), step*k]`
with `k ≤ wordBits` on a valid non-exhausted pool, where `c` is the first
chunk whose body word is not all ones and `b` is the lowest offset in that
chunk at which `k` consecutive body bits are clear (within the word), alloc
sets exactly the body bits `[b, b+k)` and head bit `b` of chunk `c` (ORs the
run mask and the head bit into those two words, all other chunks untouched,
data region untouched, flag still clear) and returns the address
`dataRegion + (c*wordBits + b) * step` — first-fit at the lowest offset. -/
theorem tb_tpool_malloc_first_fit (ws : Nat) (t : TPool) (size k c b : Nat)
    (hws : 0 < ws)
    (hmagic : t.magic = 0xdead)
    (hfull : t.full = false)
    (hstep : 0 < t.step)
    (hlo : t.step * (k - 1) < size)
    (hhi : size ≤ t.step * k)
    (hk : k ≤ 8 * ws)
    (hbw : ∀ i, t.bodyW.getD i 0 < 2 ^ (8 * ws))
    (hhw : t.headW.getD c 0 < 2 ^ (8 * ws))
    (hc : c < t.maxn)
    (hcfree : t.bodyW.getD c 0 ≠ 2 ^ (8 * ws) - 1)
    (hcfirst : ∀ j, j < c → t.bodyW.getD j 0 = 2 ^ (8 * ws) - 1)
    (hfit : b + k ≤ 8 * ws ∧ ∀ i, i < k → (t.bodyW.getD c 0).testBit (b + i) = false)
    (hleast : ∀ o, o < b →
      ¬(o + k ≤ 8 * ws ∧ ∀ i, i < k → (t.bodyW.getD c 0).testBit (o + i) = false)) :
    tb_tpool_malloc ws t size =
      (some (t.dataAddr + (c * (8 * ws) + b) * t.step),
       { t with
         bodyW := t.bodyW.set c (t.bodyW.getD c 0 ||| (2 ^ k - 1) <<< b),
         headW := t.headW.set c (t.headW.getD c 0 ||| 1 <<< b) }) := by
  obtain ⟨hbk, hclear⟩ := hfit
  have hk1 : 1 ≤ k := by
    by_contra hcon
    have hk0 : k = 0 := by omega
    rw [hk0, Nat.mul_zero] at hhi
    rw [hk0, Nat.zero_sub, Nat.mul_zero] at hlo
    omega
  have hpos : 0 < 2 ^ (8 * ws) := Nat.pos_pow_of_pos _ (by omega)
  have hsize0 : size ≠ 0 := by
    have : 0 ≤ t.step * (k - 1) := Nat.zero_le _
    omega
  have hsizele : size ≤ t.step * (8 * ws) :=
    le_trans hhi (Nat.mul_le_mul_left _ hk)
  have hbitn : tb_align size t.step / t.step = k := bitn_eq t.step size k hstep hlo hhi
  have hfc : findFreeChunk (8 * ws) t.bodyW 0 t.maxn = some c := by
    apply findFreeChunk_some (8 * ws) t.bodyW c t.maxn 0 (Nat.zero_le _) (by omega)
    · intro j hj1 hj2
      rw [hcfirst j hj2, Nat.sub_add_cancel (by omega), Nat.mod_self]
    · intro hcontra
      exact hcfree ((full_word_iff _ _ (hbw c)).mp hcontra)
  have hbits : (((1 : Nat) <<< k) % 2 ^ (8 * ws) + (2 ^ (8 * ws) - 1)) % 2 ^ (8 * ws)
      = 2 ^ k - 1 := bits_eq _ _ hk
  have hcondb : (((2 ^ (8 * ws) - 1) ^^^ t.bodyW.getD c 0) >>> b) &&& (2 ^ k - 1)
      = 2 ^ k - 1 :=
    (cond_iff_fits (8 * ws) k (t.bodyW.getD c 0) b (hbw c) hk1).mpr ⟨hbk, hclear⟩
  have hblki : findBlki (8 * ws) ((2 ^ (8 * ws) - 1) ^^^ t.bodyW.getD c 0)
      (2 ^ k - 1) 0 (8 * ws) = b := by
    apply findBlki_finds _ _ _ b (8 * ws) 0 (Nat.zero_le _) (by omega) (by omega) hcondb
    intro o _ ho hcond
    exact hleast o ho ((cond_iff_fits (8 * ws) k (t.bodyW.getD c 0) o (hbw c) hk1).mp hcond)
  simp only [tb_tpool_malloc, tb_tpool_malloc_find]
  rw [if_pos hmagic, if_pos hsize0, if_pos hsizele, if_pos hfull, hfc]
  simp only [hbitn, hbits, hblki]
  rw [if_pos (And.intro (by omega) hk), if_pos (by omega : (8 : Nat) * ws ≠ 0)]
  rw [lor_shift_low_mod _ _ _ _ (hbw c) hbk,
    lor_one_shift_mod _ _ _ hhw (by omega : b < 8 * ws)]

/-- Every entry read from a list of bounded entries is bounded (out-of-range
reads return the default `0`). -/
theorem getD_lt_of_all (m : Nat) (hm : 0 < m) :
    ∀ (l : List Nat), (∀ x ∈ l, x < m) → ∀ i, l.getD i 0 < m
  | [], _, i => by
    simpa [List.getD_eq_getElem?_getD] using hm
  | x :: xs, hl, 0 => hl x (List.mem_cons_self _ _)
  | x :: xs, hl, i + 1 =>
    getD_lt_of_all m hm xs (fun y hy => hl y (List.mem_cons_of_mem _ hy)) i

/-- Claim C3: after `init` and after every sequence of `alloc`/`free`/`clear`
operations (of any sizes, including maximal ones), every set bit of a head
bitmap word is also set in the corresponding body bitmap word. -/
theorem tb_tpool_head_subset_body (ws d s a : Nat) (t0 : TPool) (ops : List TOp)
    (hws : 0 < ws) (h0 : tb_tpool_init ws d s a = some t0) :
    tpInv (runOps ws t0 ops) :=
  (runOps_preserves ws ops t0 (init_WF ws d s a t0 hws h0)).2.2.2.2.2.2.2

/-- Witness for C3: the pool `tpInit` with a maximal allocation
(`size = step * wordBits = 512`) applied to it keeps the invariant. -/
theorem tb_tpool_head_subset_body_witness :
    tpInv (runOps 4 tpInit [TOp.alloc 512]) :=
  tb_tpool_head_subset_body 4 64 1100 0 tpInit [TOp.alloc 512] (by decide) rfl

/-- Claim C5: for every successful `init`, `maxn` (the chunk count) is the
remaining byte count from the aligned head-bitmap start to the end of the
usable buffer, divided by `2*wordSize + wordBits*step`, and it is non-zero
(`init` returns null whenever the quotient is zero, since the result is
`some` only with a non-zero quotient). -/
theorem tb_tpool_init_maxn (ws d s a : Nat) (t : TPool)
    (h0 : tb_tpool_init ws d s a = some t) :
    0 < t.maxn ∧ t.maxn = (d + s - t.headAddr) / (2 * ws + (8 * ws) * t.step) := by
  obtain ⟨h1, h2, h3, h4, h5, h6, h7, h8, h9, h10, h11, ht⟩ :=
    init_inversion ws d s a t h0
  subst ht
  dsimp only
  constructor
  · exact Nat.pos_of_ne_zero h7
  · rw [tpMaxn]
    congr 1
    · rw [tpData, tpSize]
      omega
    · rw [Nat.shiftLeft_eq, Nat.shiftLeft_eq]
      ring

/-- Witness for C5 at the concrete pool `tpInit`. -/
theorem tb_tpool_init_maxn_witness :
    0 < tpInit.maxn ∧
    tpInit.maxn = (64 + 1100 - tpInit.headAddr) / (2 * 4 + (8 * 4) * tpInit.step) :=
  tb_tpool_init_maxn 4 64 1100 0 tpInit rfl

/-- Claim C6: for every successful `init` on a buffer `[d, d+s)`, the data
capacity `maxn * wordBits * step` fits in `s`, and the head bitmap
(`maxn` words), body bitmap (`maxn` words) and data region
(`maxn * wordBits * step` bytes) are laid out in order, pairwise disjoint,
inside `[d, d+s)`. -/
theorem tb_tpool_init_layout (ws d s a : Nat) (t : TPool) (hws : 0 < ws)
    (h0 : tb_tpool_init ws d s a = some t) :
    t.maxn * (8 * ws) * t.step ≤ s ∧
    d ≤ t.headAddr ∧
    t.headAddr + t.maxn * ws ≤ t.bodyAddr ∧
    t.bodyAddr + t.maxn * ws ≤ t.dataAddr ∧
    t.dataAddr + t.maxn * (8 * ws) * t.step ≤ d + s := by
  obtain ⟨h1, h2, h3, h4, h5, h6, h7, h8, h9, h10, h11, ht⟩ :=
    init_inversion ws d s a t h0
  obtain ⟨hal, halge⟩ := tpAlignField_eq ws a h2
  have halpos : 0 < tpAlignField ws a := by omega
  have hDS : tpData ws d a + tpSize ws d s a = d + s := by
    rw [tpData, tpSize]
    omega
  rw [hDS] at h5 h8 h10 h11
  have hhead_ge : tpData ws d a + tb_tpool_sizeof ws ≤ tpHeadA ws d a :=
    le_tb_align _ _ halpos
  have hd_le_data : d ≤ tpData ws d a := by
    rw [tpData]
    omega
  have hB : tpBodyA ws d s a = tpHeadA ws d a + tpMaxn ws d s a * ws := rfl
  have hdata_ge : tpBodyA ws d s a + tpMaxn ws d s a * ws ≤ tpDataA ws d s a := by
    rw [tpDataA]
    exact le_tb_align _ _ halpos
  have hcomm : tpMaxn ws d s a * (8 * ws) * tpStepField ws a =
      tpMaxn ws d s a * tpStepField ws a * (8 * ws) := by ring
  have hsz_nonneg : 0 ≤ tb_tpool_sizeof ws := Nat.zero_le _
  subst ht
  dsimp only
  refine ⟨?_, ?_, ?_, ?_, ?_⟩
  · rw [hcomm]
    omega
  · omega
  · omega
  · exact hdata_ge
  · rw [hcomm]
    omega

/-- Witness for C6 at the concrete pool `tpInit`. -/
theorem tb_tpool_init_layout_witness :
    tpInit.maxn * (8 * 4) * tpInit.step ≤ 1100 ∧
    64 ≤ tpInit.headAddr ∧
    tpInit.headAddr + tpInit.maxn * 4 ≤ tpInit.bodyAddr ∧
    tpInit.bodyAddr + tpInit.maxn * 4 ≤ tpInit.dataAddr ∧
    tpInit.dataAddr + tpInit.maxn * (8 * 4) * tpInit.step ≤ 64 + 1100 :=
  tb_tpool_init_layout 4 64 1100 0 tpInit (by decide) rfl

/-- Claim C7 (amended): with the exhausted flag set, every alloc call fails
immediately and leaves the whole pool state unchanged (no scanning effect is
observable) — whatever the requested size; `clear` resets the flag; `free` in
this snapshot is a stub that changes nothing, in particular it does NOT clear
the flag. -/
theorem tb_tpool_exhausted_behavior (ws : Nat) (t : TPool) (s : Nat) (p : Option Nat)
    (hmagic : t.magic = 0xdead) (hfull : t.full = true) :
    tb_tpool_malloc ws t s = (none, t) ∧
    (tb_tpool_clear ws t).full = false ∧
    tb_tpool_free t p = (true, t) := by
  refine ⟨?_, ?_, rfl⟩
  · simp only [tb_tpool_malloc]
    rw [if_pos hmagic]
    by_cases hs : s ≠ 0
    · rw [if_pos hs]
      by_cases hle : s ≤ t.step * (8 * ws)
      · rw [if_pos hle, if_neg (by rw [hfull]; simp)]
      · rw [if_neg hle]
    · rw [if_neg hs]
  · simp only [tb_tpool_clear]
    rw [if_pos hmagic]

/-- Witness for the amended C7 at the concrete exhausted pool `tpExh`. -/
theorem tb_tpool_exhausted_behavior_witness :
    tb_tpool_malloc 4 tpExh 16 = (none, tpExh) ∧
    (tb_tpool_clear 4 tpExh).full = false ∧
    tb_tpool_free tpExh (some 96) = (true, tpExh) :=
  tb_tpool_exhausted_behavior 4 tpExh 16 (some 96) rfl rfl

/-- Counterexample to C7 as stated: a concrete run in which `init` succeeds,
a maximal allocation fills the single chunk, a further allocation fails with
pool exhaustion and sets the flag — and then `free` leaves the flag set (and
the whole state unchanged), so `free` does not re-enable scanning. -/
theorem tb_tpool_free_keeps_exhausted :
    tb_tpool_init 4 64 600 0 = some tpE0 ∧
    tb_tpool_malloc 4 tpE0 512 = (some 96, tpE1) ∧
    tb_tpool_malloc 4 tpE1 16 = (none, tpExh) ∧
    tpExh.full = true ∧
    tb_tpool_free tpExh (some 96) = (true, tpExh) ∧
    (tb_tpool_free tpExh (some 96)).2.full = true :=
  ⟨rfl, rfl, rfl, rfl, rfl, rfl⟩

/-- Claim C8: alloc with `size = 0` or `size > step * wordBits` fails and
returns the pool state completely unchanged — the checks run before the full
flag is consulted, before any bitmap scan, and before any store. -/
theorem tb_tpool_malloc_invalid_size (ws : Nat) (t : TPool) (size : Nat)
    (hmagic : t.magic = 0xdead)
    (h : size = 0 ∨ t.step * (8 * ws) < size) :
    tb_tpool_malloc ws t size = (none, t) := by
  simp only [tb_tpool_malloc]
  rw [if_pos hmagic]
  rcases h with h0 | hbig
  · rw [if_neg (by omega)]
  · rw [if_pos (by omega : size ≠ 0), if_neg (by omega)]

/-- Witness for C8: both failure kinds at the concrete pool `tpDemo`
(step 16, wordBits 32, so the largest admissible size is 512). -/
theorem tb_tpool_malloc_invalid_size_witness :
    tb_tpool_malloc 4 tpDemo 0 = (none, tpDemo) ∧
    tb_tpool_malloc 4 tpDemo 513 = (none, tpDemo) :=
  ⟨tb_tpool_malloc_invalid_size 4 tpDemo 0 rfl (Or.inl rfl),
   tb_tpool_malloc_invalid_size 4 tpDemo 513 rfl (Or.inr (by decide))⟩

/-- Claim C9: `clear` on a pool with non-null region pointers (as `init`
creates them) zeroes the data region, the head bitmap and the body bitmap,
resets the exhausted flag (and the prediction cache), and leaves the magic,
alignment, step, chunk count and the three region pointers unchanged. -/
theorem tb_tpool_clear_resets (ws : Nat) (t : TPool)
    (hmagic : t.magic = 0xdead) (hh : t.headAddr ≠ 0) (hb : t.bodyAddr ≠ 0)
    (hd : t.dataAddr ≠ 0) :
    tb_tpool_clear ws t =
      { t with dataB := List.replicate (t.maxn * t.step * (8 * ws)) 0,
               headW := List.replicate t.maxn 0,
               bodyW := List.replicate t.maxn 0,
               pred := 0, full := false } := by
  simp only [tb_tpool_clear]
  rw [if_pos hmagic, if_pos hd, if_pos hh, if_pos hb]

/-- Witness for C9 at the concrete pool `tpDemo`. -/
theorem tb_tpool_clear_resets_witness :
    tb_tpool_clear 4 tpDemo =
      { tpDemo with dataB := List.replicate (tpDemo.maxn * tpDemo.step * (8 * 4)) 0,
                    headW := List.replicate tpDemo.maxn 0,
                    bodyW := List.replicate tpDemo.maxn 0,
                    pred := 0, full := false } :=
  tb_tpool_clear_resets 4 tpDemo rfl (by decide) (by decide) (by decide)

/-- Claim C10: `tb_tpool_free` in this snapshot returns success for every
pool handle and every pointer argument and leaves the entire pool state
unchanged — it never detects an invalid pointer or a double free and never
clears a bitmap bit. -/
theorem tb_tpool_free_noop (t : TPool) (p : Option Nat) :
    tb_tpool_free t p = (true, t) := rfl

/-- Claim C1 (evidence for the code defect): from the initialized pool
`tpInit`, a 31-block allocation produces `tpDemo`, whose first chunk is not
full (`bodyW[0] = 0x7FFFFFFF`, bit 31 free) yet contains no run of two
consecutive free bits starting below 31 (and a run starting at 31 would leave
the word).  An `alloc` of 17 bytes (two blocks) on `tpDemo` then does NOT
fail: the probe loop runs off the word, the dead `blkn` check passes, and the
call returns the non-null address `dataRegion + 512` (chunk 1, block 0),
stores masks shifted past the word width (erased by truncation, shift
overflow being undefined behaviour in the C), marks no bits, and leaves the
exhausted flag clear — where the claim requires a null return with the
exhausted flag set. -/
theorem tb_tpool_malloc_no_fit_fallthrough :
    tb_tpool_init 4 64 1100 0 = some tpInit ∧
    tb_tpool_malloc 4 tpInit 496 = (some 104, tpDemo) ∧
    tpDemo.full = false ∧
    tpDemo.bodyW.getD 0 0 ≠ 2 ^ 32 - 1 ∧
    (∀ o, o < 31 →
      ¬((tpDemo.bodyW.getD 0 0).testBit o = false ∧
        (tpDemo.bodyW.getD 0 0).testBit (o + 1) = false)) ∧
    tb_tpool_malloc 4 tpDemo 17 = (some 616, tpDemo) :=
  ⟨rfl, rfl, rfl, by decide, by decide, rfl⟩

/-- Claim C4 (evidence for the code defect): because the no-fit case falls
through (see `tpDemo`), two consecutive `alloc 17` calls with no `free` in
between both return the same address 616 and mark no bits, so the block runs
backing two simultaneously-live allocations coincide — allocation
disjointness fails on this reachable state. -/
theorem tb_tpool_alloc_overlap :
    tb_tpool_init 4 64 1100 0 = some tpInit ∧
    tb_tpool_malloc 4 tpInit 496 = (some 104, tpDemo) ∧
    tb_tpool_malloc 4 tpDemo 17 = (some 616, tpDemo) ∧
    tb_tpool_malloc 4 (tb_tpool_malloc 4 tpDemo 17).2 17 = (some 616, tpDemo) :=
  ⟨rfl, rfl, rfl, rfl⟩

/-- Witness for C2: on the freshly initialized pool `tpInit`, allocating 496
bytes (31 blocks of step 16) in chunk 0 at offset 0 returns
`dataRegion + (0*32 + 0)*16 = 104` and ORs the 31-bit run mask and head bit 0
into chunk 0. -/
theorem tb_tpool_malloc_first_fit_witness :
    tb_tpool_malloc 4 tpInit 496 =
      (some (tpInit.dataAddr + (0 * (8 * 4) + 0) * tpInit.step),
       { tpInit with
         bodyW := tpInit.bodyW.set 0 (tpInit.bodyW.getD 0 0 ||| (2 ^ 31 - 1) <<< 0),
         headW := tpInit.headW.set 0 (tpInit.headW.getD 0 0 ||| 1 <<< 0) }) :=
  tb_tpool_malloc_first_fit 4 tpInit 496 31 0 0 (by decide) rfl rfl (by decide)
    (by decide) (by decide) (by decide)
    (getD_lt_of_all (2 ^ 32) (by decide) [0, 0] (by decide))
    (by decide) (by decide) (by decide)
    (fun j hj => absurd hj (Nat.not_lt_zero j))
    ⟨by decide, fun i _ => Nat.zero_testBit _⟩
    (fun o ho => absurd ho (Nat.not_lt_zero o))
